import Mathlib

/-!
Shallow embedding of `src/app.py` (an AI job-assistant form application).
The algorithmic core embedded here is the match-result interpretation
pipeline:

* `extract_match_percentage` (app.py lines 63-73): two-stage extraction of a
  numeric percentage from free text, via
  `re.search(r"Match\s*Percentage[:\s]*([\d]+)%", text, re.IGNORECASE)` and,
  failing that, `re.findall(r'\b\d+\b', text)` filtered to [50, 100], with a
  final fallback of 50;
* `match_percentage_to_words` (lines 76-86): five-way classification;
* `display_pie_chart` (lines 89-107): the `sizes` computation
  `[match_percentage, 100 - match_percentage]`;
* `input_pdf_setup` (lines 30-38): raises `FileNotFoundError` when no file
  was uploaded, modelled as `Except`;
* `get_openrouter_response` (lines 41-60): its failure branch returns the
  string `f"⚠️ Error: {str(e)}"`, modelled by `get_openrouter_response_error`.

Strings are modelled as `List Char`. The character classes `\s`, `\d`, `\w`
and the IGNORECASE folding are modelled over ASCII (the Python `re` module
additionally folds and classifies non-ASCII codepoints; every string the
application's prompts and the specification's scenarios deal in is ASCII,
so the ASCII model is the faithful fragment).

Both regexes are matched without backtracking, which is sound here:

* In `Match\s*Percentage[:\s]*([\d]+)%`, each greedy quantifier ranges over a
  character class disjoint from the character that must follow it (`\s*` is
  followed by `P`/`p`, `[:\s]*` by a digit, `[\d]+` by `%`), so at any start
  position the greedy, non-backtracking parse finds a match if and only if
  the Python engine does, and the captured group is the same.  `re.search`
  tries start positions left to right, which `findLabeled` mirrors.
* In `\b\d+\b`, the candidate matches are exactly the maximal digit runs
  whose left neighbour is absent or a non-word character and whose right
  neighbour is absent or a non-word character: shortening a greedy `\d+` run
  can never repair a failed trailing `\b`, because the boundary would then
  fall between two digits.  `runsScan` collects every maximal digit run
  together with the two boundary flags; `re.findall` returns precisely the
  runs with both flags set.
-/

/-- ASCII model of the Python regex class `\s`. -/
def isSpaceChar (c : Char) : Bool :=
  c = ' ' || c = '\t' || c = '\n' || c = '\r' || c = '\x0b' || c = '\x0c'

/-- ASCII model of the Python regex class `\w` (word character). -/
def isWordChar (c : Char) : Bool :=
  c.isAlphanum || c = '_'

/-- The class `[:\s]` used between the label and the digits. -/
def isColonSpace (c : Char) : Bool :=
  c = ':' || isSpaceChar c

/-- Numeric value of a single decimal digit character. -/
def digitVal (c : Char) : Nat :=
  c.toNat - '0'.toNat

/-- Value of a digit run, as Python's `int` computes it (leading zeros are
plain positional zeros, e.g. `"007"` evaluates to `7`). -/
def digitsVal (ds : List Char) : Nat :=
  ds.foldl (fun a c => 10 * a + digitVal c) 0

/-- Python's `int : str -> int` on a candidate digit string: succeeds exactly
on a nonempty all-digit string, otherwise raises (`none`). -/
def parseNatDigits (ds : List Char) : Option Nat :=
  if ds ≠ [] ∧ ds.all Char.isDigit then some (digitsVal ds) else none

/-- Case-insensitive literal matcher: `matchCILit pat l` consumes `pat`
(a lowercase literal) from the front of `l`, returning the rest on success.
Models a literal fragment of a pattern compiled with `re.IGNORECASE`. -/
def matchCILit : List Char → List Char → Option (List Char)
  | [], l => some l
  | _ :: _, [] => none
  | p :: ps, c :: cs => if c.toLower = p then matchCILit ps cs else none

/-- One anchored attempt of `Match\s*Percentage[:\s]*([\d]+)%` (IGNORECASE)
at the front of `l`; returns the captured group `([\d]+)` on success. -/
def matchLabeledAt (l : List Char) : Option (List Char) :=
  match matchCILit "match".toList l with
  | none => none
  | some r1 =>
    match matchCILit "percentage".toList (r1.dropWhile isSpaceChar) with
    | none => none
    | some r2 =>
      if (r2.dropWhile isColonSpace).takeWhile Char.isDigit = [] then none
      else
        match (r2.dropWhile isColonSpace).dropWhile Char.isDigit with
        | '%' :: _ => some ((r2.dropWhile isColonSpace).takeWhile Char.isDigit)
        | _ => none

/-- `re.search` of the labeled pattern: try every start position left to
right, return the captured digit group of the leftmost full match. -/
def findLabeled : List Char → Option (List Char)
  | [] => none
  | c :: t =>
    match matchLabeledAt (c :: t) with
    | some ds => some ds
    | none => findLabeled t

/-- Scanner underlying `re.findall(r'\b\d+\b', text)`: returns every maximal
digit run of the text (in order) together with its two word-boundary flags
(left neighbour absent-or-non-word, right neighbour absent-or-non-word).
`prevWord` records whether the previously consumed character was a word
character; `cur` carries the digit run in progress and its left flag. -/
def runsScan : Bool → Option (List Char × Bool) → List Char → List (List Char × Bool × Bool)
  | _, none, [] => []
  | _, some (ds, lo), [] => [(ds, lo, true)]
  | prevWord, none, c :: t =>
    if c.isDigit then runsScan true (some ([c], !prevWord)) t
    else runsScan (isWordChar c) none t
  | _, some (ds, lo), c :: t =>
    if c.isDigit then runsScan true (some (ds ++ [c], lo)) t
    else (ds, lo, !isWordChar c) :: runsScan (isWordChar c) none t

/-- All maximal digit runs of the text, in order.  This is the
specification's notion of "maximal digit runs bounded by non-digit
characters"; kept for comparison with the code's word-boundary scan. -/
def digitRuns (s : List Char) : List (List Char) :=
  (runsScan false none s).map (fun r => r.1)

/-- The runs `re.findall(r'\b\d+\b', text)` actually returns: the maximal
digit runs with both word-boundary flags set. -/
def boundedRuns (s : List Char) : List (List Char) :=
  (runsScan false none s).filterMap
    (fun r => if r.2.1 && r.2.2 then some r.1 else none)

/-- The loop `for num in numbers: if 50 <= num <= 100: return num`. -/
def firstInRange : List Nat → Option Nat
  | [] => none
  | n :: t => if 50 ≤ n ∧ n ≤ 100 then some n else firstInRange t

/-- `extract_match_percentage` (app.py lines 63-73), total form. -/
def extract_match_percentage (s : List Char) : Nat :=
  match findLabeled s with
  | some ds => digitsVal ds
  | none =>
    match firstInRange ((boundedRuns s).map digitsVal) with
    | some n => n
    | none => 50

/-- `extract_match_percentage` with Python's `int` conversions kept fallible:
`none` models an uncaught `ValueError` escaping the function.  Used to state
that the function never raises. -/
def extract_match_percentage_opt (s : List Char) : Option Nat :=
  match findLabeled s with
  | some ds => parseNatDigits ds
  | none =>
    match (boundedRuns s).mapM parseNatDigits with
    | none => none
    | some numbers => some ((firstInRange numbers).getD 50)

/-- `match_percentage_to_words` (app.py lines 76-86). -/
def match_percentage_to_words (p : Int) : String :=
  if p ≥ 80 then "*Excellent Match* ✅"
  else if p ≥ 60 then "*Strong Match* 👍"
  else if p ≥ 40 then "*Good Match* ⚡"
  else if p ≥ 20 then "*Weak Match* ⚠"
  else "*Poor Match* ❌"

/-- The `sizes` list computed by `display_pie_chart` (app.py line 92):
`sizes = [match_percentage, 100 - match_percentage]`. -/
def display_pie_chart_sizes (p : Int) : List Int :=
  [p, 100 - p]

/-- `input_pdf_setup` (app.py lines 30-38): raises
`FileNotFoundError("No file uploaded")` when called with `None`, otherwise
renders the document's first page (the PyMuPDF/base64 work is the abstract
`render`).  The raise is modelled as `Except.error`. -/
def input_pdf_setup {α β : Type} (render : α → β) : Option α → Except String β
  | none => Except.error "No file uploaded"
  | some f => Except.ok (render f)

/-- The failure branch of `get_openrouter_response` (app.py line 60):
`return f"⚠️ Error: {str(e)}"`. -/
def get_openrouter_response_error (msg : List Char) : List Char :=
  "⚠️ Error: ".toList ++ msg

/-! ## Helper lemmas -/

theorem matchLabeledAt_nil : matchLabeledAt [] = none := by
  decide

theorem firstInRange_eq_none (l : List Nat)
    (h : ∀ v ∈ l, ¬(50 ≤ v ∧ v ≤ 100)) : firstInRange l = none := by
  induction l with
  | nil => rfl
  | cons n t ih =>
    have hn := h n (by simp)
    simp only [firstInRange, if_neg hn]
    exact ih (fun v hv => h v (List.mem_cons_of_mem _ hv))

theorem firstInRange_some {l : List Nat} {v : Nat}
    (h : firstInRange l = some v) : v ∈ l ∧ 50 ≤ v ∧ v ≤ 100 := by
  induction l with
  | nil => simp [firstInRange] at h
  | cons n t ih =>
    by_cases hn : 50 ≤ n ∧ n ≤ 100
    · simp only [firstInRange, if_pos hn, Option.some.injEq] at h
      subst h
      exact ⟨List.mem_cons_self _ _, hn⟩
    · simp only [firstInRange, if_neg hn] at h
      obtain ⟨hm, hr⟩ := ih h
      exact ⟨List.mem_cons_of_mem _ hm, hr⟩

theorem findLabeled_of_first (i : Nat) :
    ∀ (s ds : List Char),
      matchLabeledAt (s.drop i) = some ds →
      (∀ j, j < i → matchLabeledAt (s.drop j) = none) →
      findLabeled s = some ds := by
  induction i with
  | zero =>
    intro s ds h _
    cases s with
    | nil => rw [List.drop_nil, matchLabeledAt_nil] at h; exact absurd h (by simp)
    | cons c t =>
      rw [List.drop_zero] at h
      simp only [findLabeled, h]
  | succ i ih =>
    intro s ds h hnone
    cases s with
    | nil => rw [List.drop_nil, matchLabeledAt_nil] at h; exact absurd h (by simp)
    | cons c t =>
      have h0 : matchLabeledAt (c :: t) = none := by
        have := hnone 0 (Nat.succ_pos i)
        rwa [List.drop_zero] at this
      rw [List.drop_succ_cons] at h
      simp only [findLabeled, h0]
      exact ih t ds h (fun j hj => by
        have := hnone (j + 1) (Nat.succ_lt_succ hj)
        rwa [List.drop_succ_cons] at this)

theorem mem_digitRuns_of_mem_boundedRuns {s : List Char} {r : List Char}
    (h : r ∈ boundedRuns s) : r ∈ digitRuns s := by
  obtain ⟨q, hq, hf⟩ := List.mem_filterMap.1 h
  by_cases hc : (q.2.1 && q.2.2) = true
  · rw [if_pos hc, Option.some.injEq] at hf
    subst hf
    exact List.mem_map.2 ⟨q, hq, rfl⟩
  · rw [if_neg hc] at hf
    exact absurd hf (by simp)

theorem findLabeled_append_of_no_m (pre : List Char)
    (hpre : ∀ c ∈ pre, c.toLower ≠ 'm') (m : List Char) :
    findLabeled (pre ++ m) = findLabeled m := by
  induction pre with
  | nil => rfl
  | cons c t ih =>
    have hc : c.toLower ≠ 'm' := hpre c (List.mem_cons_self _ _)
    have hlit : "match".toList = 'm' :: "atch".toList := rfl
    have hm : matchLabeledAt (c :: (t ++ m)) = none := by
      unfold matchLabeledAt
      rw [hlit]
      simp only [matchCILit, if_neg hc]
    rw [List.cons_append]
    simp only [findLabeled, hm]
    exact ih (fun x hx => hpre x (List.mem_cons_of_mem _ hx))

theorem runsScan_append_nondigit (pre : List Char) :
    ∀ (b : Bool) (m : List Char), (∀ c ∈ pre, c.isDigit = false) →
      runsScan b none (pre ++ m) =
        runsScan (pre.foldl (fun _ c => isWordChar c) b) none m := by
  induction pre with
  | nil => intro b m _; rfl
  | cons c t ih =>
    intro b m hpre
    have hc : c.isDigit = false := hpre c (List.mem_cons_self _ _)
    rw [List.cons_append]
    simp only [runsScan, hc, Bool.false_eq_true, if_false, List.foldl_cons]
    exact ih (isWordChar c) m (fun x hx => hpre x (List.mem_cons_of_mem _ hx))

theorem boundedRuns_error_prefix (m : List Char) :
    boundedRuns (get_openrouter_response_error m) = boundedRuns m := by
  unfold boundedRuns get_openrouter_response_error
  rw [runsScan_append_nondigit _ false m (by decide)]
  have hfold : ("⚠️ Error: ".toList).foldl (fun _ c => isWordChar c) false = false := by
    decide
  rw [hfold]

theorem runsScan_wf :
    ∀ (s : List Char) (b : Bool) (cur : Option (List Char × Bool)),
      (∀ ds lo, cur = some (ds, lo) → ds ≠ [] ∧ ds.all Char.isDigit) →
      ∀ r ∈ runsScan b cur s, r.1 ≠ [] ∧ r.1.all Char.isDigit := by
  intro s
  induction s with
  | nil =>
    intro b cur hcur r hr
    match cur with
    | none => simp [runsScan] at hr
    | some (ds, lo) =>
      simp only [runsScan, List.mem_singleton] at hr
      subst hr
      exact hcur ds lo rfl
  | cons c t ih =>
    intro b cur hcur r hr
    match cur with
    | none =>
      by_cases hd : c.isDigit = true
      · simp only [runsScan, hd, if_true] at hr
        refine ih true (some ([c], !b)) ?_ r hr
        intro ds lo hds
        rw [Option.some.injEq, Prod.mk.injEq] at hds
        rw [← hds.1]
        exact ⟨by simp, by simp [hd]⟩
      · simp only [runsScan, hd, Bool.false_eq_true, if_false] at hr
        exact ih (isWordChar c) none (by simp) r hr
    | some (ds, lo) =>
      obtain ⟨hne, hdig⟩ := hcur ds lo rfl
      by_cases hd : c.isDigit = true
      · simp only [runsScan, hd, if_true] at hr
        refine ih true (some (ds ++ [c], lo)) ?_ r hr
        intro es eo hes
        rw [Option.some.injEq, Prod.mk.injEq] at hes
        rw [← hes.1]
        refine ⟨by simp, ?_⟩
        rw [List.all_append]
        simp [hdig, hd]
      · simp only [runsScan, hd, Bool.false_eq_true, if_false] at hr
        rcases List.mem_cons.1 hr with h | h
        · subst h; exact ⟨hne, hdig⟩
        · exact ih (isWordChar c) none (by simp) r h

theorem boundedRuns_wf {s : List Char} {r : List Char}
    (h : r ∈ boundedRuns s) : r ≠ [] ∧ r.all Char.isDigit := by
  have hm := mem_digitRuns_of_mem_boundedRuns h
  obtain ⟨q, hq, hq1⟩ := List.mem_map.1 hm
  rw [← hq1]
  exact runsScan_wf s false none (by simp) q hq

theorem matchLabeledAt_wf {l ds : List Char}
    (h : matchLabeledAt l = some ds) : ds ≠ [] ∧ ds.all Char.isDigit := by
  unfold matchLabeledAt at h
  split at h
  · exact absurd h (by simp)
  · split at h
    · exact absurd h (by simp)
    · split at h
      · exact absurd h (by simp)
      · rename_i hne
        split at h
        · rw [Option.some.injEq] at h
          subst h
          exact ⟨hne, List.all_eq_true.2 (fun c hc => List.mem_takeWhile_imp hc)⟩
        · exact absurd h (by simp)

theorem findLabeled_wf :
    ∀ {s ds : List Char}, findLabeled s = some ds →
      ds ≠ [] ∧ ds.all Char.isDigit := by
  intro s
  induction s with
  | nil => intro ds h; exact absurd h (by simp [findLabeled])
  | cons c t ih =>
    intro ds h
    simp only [findLabeled] at h
    cases hm : matchLabeledAt (c :: t) with
    | some es => rw [hm, Option.some.injEq] at h; subst h; exact matchLabeledAt_wf hm
    | none => rw [hm] at h; exact ih h

theorem mapM_parseNatDigits :
    ∀ (rs : List (List Char)), (∀ r ∈ rs, r ≠ [] ∧ r.all Char.isDigit) →
      rs.mapM parseNatDigits = some (rs.map digitsVal) := by
  intro rs
  induction rs with
  | nil => intro _; rfl
  | cons r t ih =>
    intro h
    have hr := h r (List.mem_cons_self _ _)
    have hp : parseNatDigits r = some (digitsVal r) := by
      unfold parseNatDigits
      rw [if_pos ⟨hr.1, hr.2⟩]
    have ht := ih (fun x hx => h x (List.mem_cons_of_mem _ hx))
    rw [List.mapM_cons, hp, ht]
    rfl

/-! ## Claims -/

/-- C1: whenever the input contains the labeled pattern — case-insensitive
`Match`, optional whitespace, `Percentage`, an optional run of colons and
whitespace, one or more digits, and a literal `%` — `extract_match_percentage`
returns the integer parsed from the digit run of the first (leftmost) such
occurrence, regardless of any other numbers in the text; in particular the
scenario input `"Match Percentage: 82%\nMissing Keywords: ..."` yields 82
(see the witness). -/
theorem labeled_percentage_first_occurrence (s ds : List Char) (i : Nat)
    (hmatch : matchLabeledAt (s.drop i) = some ds)
    (hfirst : ∀ j, j < i → matchLabeledAt (s.drop j) = none) :
    extract_match_percentage s = digitsVal ds := by
  have h := findLabeled_of_first i s ds hmatch hfirst
  simp [extract_match_percentage, h]

theorem labeled_percentage_first_occurrence_witness :
    extract_match_percentage "Match Percentage: 82%\nMissing Keywords: ...".toList = 82 := by
  have h := labeled_percentage_first_occurrence
    "Match Percentage: 82%\nMissing Keywords: ...".toList ['8', '2'] 0
    (by decide) (fun j hj => absurd hj (Nat.not_lt_zero j))
  exact h.trans (by decide)

/-- C2 counterexample: the claim asserts that when no labeled pattern occurs,
the first maximal digit run bounded by arbitrary non-digit characters with
value in [50, 100] is returned — "including letters, as in `score65`".  On
`"score65"` no labeled pattern occurs and the first (only) maximal digit run
is 65, yet the code returns 50, because `\b\d+\b` requires word boundaries
and the letter `e` before `65` is a word character. -/
theorem bare_number_scan_counterexample :
    findLabeled "score65".toList = none ∧
    firstInRange ((digitRuns "score65".toList).map digitsVal) = some 65 ∧
    extract_match_percentage "score65".toList ≠ 65 := by
  exact ⟨by decide, by decide, by decide⟩

/-- C2 (amended): when the labeled pattern does not occur, the code scans the
maximal digit runs whose two neighbours are absent or non-word characters
(word characters being letters, digits and underscore — so runs glued to
letters, as in `"score65"`, are skipped) in left-to-right order and returns
the first such run whose value lies in the inclusive range [50, 100]. -/
theorem bare_number_scan_word_boundary (s : List Char) (v : Nat)
    (hl : findLabeled s = none)
    (hv : firstInRange ((boundedRuns s).map digitsVal) = some v) :
    extract_match_percentage s = v ∧ 50 ≤ v ∧ v ≤ 100 := by
  refine ⟨?_, (firstInRange_some hv).2⟩
  simp [extract_match_percentage, hl, hv]

theorem bare_number_scan_word_boundary_witness :
    extract_match_percentage "score is around 65 out of many factors".toList = 65 ∧
    50 ≤ 65 ∧ 65 ≤ 100 :=
  bare_number_scan_word_boundary
    "score is around 65 out of many factors".toList 65 (by decide) (by decide)

/-- C3: when the input contains no labeled occurrence and no maximal digit
run with value in [50, 100], `extract_match_percentage` returns exactly 50;
the scenario `"Candidate has 3 years experience and 12 missing skills"` is
the witness.  (The hypothesis quantifies over all maximal digit runs, which
subsume the word-bounded runs the code actually collects.) -/
theorem fallback_fifty (s : List Char)
    (hl : findLabeled s = none)
    (hr : ∀ v ∈ (digitRuns s).map digitsVal, ¬(50 ≤ v ∧ v ≤ 100)) :
    extract_match_percentage s = 50 := by
  have hsub : ∀ v ∈ (boundedRuns s).map digitsVal, ¬(50 ≤ v ∧ v ≤ 100) := by
    intro v hv
    obtain ⟨r, hrmem, hrv⟩ := List.mem_map.1 hv
    exact hr v (List.mem_map.2 ⟨r, mem_digitRuns_of_mem_boundedRuns hrmem, hrv⟩)
  have hnone := firstInRange_eq_none _ hsub
  simp [extract_match_percentage, hl, hnone]

theorem fallback_fifty_witness :
    extract_match_percentage
      "Candidate has 3 years experience and 12 missing skills".toList = 50 :=
  fallback_fifty _ (by decide) (by decide)

/-- C4: for every integer p in [0, 100], the five ranges [80,100], [60,79],
[40,59], [20,39], [0,19] cover p (exhaustive), are pairwise disjoint
(non-overlapping), and `match_percentage_to_words` maps each range to its
fixed verdict, so exactly one verdict is returned. -/
theorem classification_partition (p : Int) (h0 : 0 ≤ p) (h100 : p ≤ 100) :
    ((80 ≤ p ∧ p ≤ 100) ∨ (60 ≤ p ∧ p ≤ 79) ∨ (40 ≤ p ∧ p ≤ 59) ∨
      (20 ≤ p ∧ p ≤ 39) ∨ (0 ≤ p ∧ p ≤ 19)) ∧
    (¬((80 ≤ p ∧ p ≤ 100) ∧ (60 ≤ p ∧ p ≤ 79)) ∧
      ¬((80 ≤ p ∧ p ≤ 100) ∧ (40 ≤ p ∧ p ≤ 59)) ∧
      ¬((80 ≤ p ∧ p ≤ 100) ∧ (20 ≤ p ∧ p ≤ 39)) ∧
      ¬((80 ≤ p ∧ p ≤ 100) ∧ (0 ≤ p ∧ p ≤ 19)) ∧
      ¬((60 ≤ p ∧ p ≤ 79) ∧ (40 ≤ p ∧ p ≤ 59)) ∧
      ¬((60 ≤ p ∧ p ≤ 79) ∧ (20 ≤ p ∧ p ≤ 39)) ∧
      ¬((60 ≤ p ∧ p ≤ 79) ∧ (0 ≤ p ∧ p ≤ 19)) ∧
      ¬((40 ≤ p ∧ p ≤ 59) ∧ (20 ≤ p ∧ p ≤ 39)) ∧
      ¬((40 ≤ p ∧ p ≤ 59) ∧ (0 ≤ p ∧ p ≤ 19)) ∧
      ¬((20 ≤ p ∧ p ≤ 39) ∧ (0 ≤ p ∧ p ≤ 19))) ∧
    (80 ≤ p ∧ p ≤ 100 → match_percentage_to_words p = "*Excellent Match* ✅") ∧
    (60 ≤ p ∧ p ≤ 79 → match_percentage_to_words p = "*Strong Match* 👍") ∧
    (40 ≤ p ∧ p ≤ 59 → match_percentage_to_words p = "*Good Match* ⚡") ∧
    (20 ≤ p ∧ p ≤ 39 → match_percentage_to_words p = "*Weak Match* ⚠") ∧
    (0 ≤ p ∧ p ≤ 19 → match_percentage_to_words p = "*Poor Match* ❌") := by
  unfold match_percentage_to_words
  refine ⟨by omega, by omega, ?_, ?_, ?_, ?_, ?_⟩ <;>
    · intro hp
      split_ifs <;> first | rfl | (exfalso; omega)

theorem classification_partition_witness :
    match_percentage_to_words 82 = "*Excellent Match* ✅" := by
  have h := classification_partition 82 (by decide) (by decide)
  exact h.2.2.1 ⟨by decide, by decide⟩

/-- C5: for every integer p in [0, 100], the pie-chart sizes are exactly
`[p, 100 - p]`, and the two shares sum to 100. -/
theorem pie_chart_proportions (p : Int) (h0 : 0 ≤ p) (h100 : p ≤ 100) :
    display_pie_chart_sizes p = [p, 100 - p] ∧
    (display_pie_chart_sizes p).sum = 100 := by
  refine ⟨rfl, ?_⟩
  simp [display_pie_chart_sizes]

theorem pie_chart_proportions_witness :
    display_pie_chart_sizes 82 = [82, 18] ∧
    (display_pie_chart_sizes 82).sum = 100 := by
  have h := pie_chart_proportions 82 (by decide) (by decide)
  exact ⟨h.1.trans (by decide), h.2⟩

/-- C6 counterexample: the claim quantifies over every exception message m,
but the failure branch merely prefixes `"⚠️ Error: "`, so a message that
itself contains a qualifying number defeats the fallback: for m = `"65"` the
error string parses to 65, not 50. -/
theorem error_string_counterexample :
    extract_match_percentage (get_openrouter_response_error "65".toList) = 65 ∧
    (65 : Nat) ≠ 50 := by
  exact ⟨by decide, by decide⟩

/-- C6 (amended): for every exception message m that itself contains no
labeled occurrence and no word-bounded digit run with value in [50, 100],
the error string `"⚠️ Error: " ++ m` produced by the failure branch of
`get_openrouter_response` falls through to the default and yields 50 (the
prefix contributes no label and no digits, and ends in a non-word character,
so it leaves the scan of m undisturbed). -/
theorem error_string_defaults_fifty (m : List Char)
    (hl : findLabeled m = none)
    (hr : firstInRange ((boundedRuns m).map digitsVal) = none) :
    extract_match_percentage (get_openrouter_response_error m) = 50 := by
  have h1 : findLabeled (get_openrouter_response_error m) = none := by
    unfold get_openrouter_response_error
    rw [findLabeled_append_of_no_m _ (by decide) m, hl]
  have h2 := boundedRuns_error_prefix m
  simp [extract_match_percentage, h1, h2, hr]

theorem error_string_defaults_fifty_witness :
    extract_match_percentage (get_openrouter_response_error "timeout".toList) = 50 :=
  error_string_defaults_fifty _ (by decide) (by decide)

/-- C7 counterexample: the labeled branch does not clamp, so the result can
leave [0, 100]: on `"Match Percentage: 150%"` the function returns 150. -/
theorem extraction_range_counterexample :
    extract_match_percentage "Match Percentage: 150%".toList = 150 ∧
    ¬(150 ≤ 100) := by
  exact ⟨by decide, by decide⟩

/-- C7 (amended): whenever the labeled pattern does not occur, the result of
`extract_match_percentage` lies in [50, 100] and hence in [0, 100] (the
bare-number filter and the fallback both guarantee it); when the labeled
branch matches, the parsed value is returned unclamped and may exceed 100. -/
theorem unlabeled_extraction_in_range (s : List Char)
    (hl : findLabeled s = none) :
    50 ≤ extract_match_percentage s ∧ extract_match_percentage s ≤ 100 := by
  cases hfr : firstInRange ((boundedRuns s).map digitsVal) with
  | none =>
    have h : extract_match_percentage s = 50 := by
      simp [extract_match_percentage, hl, hfr]
    rw [h]
    omega
  | some v =>
    have h : extract_match_percentage s = v := by
      simp [extract_match_percentage, hl, hfr]
    rw [h]
    exact (firstInRange_some hfr).2

theorem unlabeled_extraction_in_range_witness :
    50 ≤ extract_match_percentage "hello".toList ∧
    extract_match_percentage "hello".toList ≤ 100 :=
  unlabeled_extraction_in_range "hello".toList (by decide)

/-- C8: `match_percentage_to_words` is total over all integers and extends
the outermost buckets outward: above 100 it still answers Excellent Match,
below 0 it still answers Poor Match. -/
theorem classification_outside_range (p : Int) :
    (100 < p → match_percentage_to_words p = "*Excellent Match* ✅") ∧
    (p < 0 → match_percentage_to_words p = "*Poor Match* ❌") := by
  unfold match_percentage_to_words
  constructor <;> intro h <;> split_ifs <;> first | rfl | (exfalso; omega)

theorem classification_outside_range_witness :
    match_percentage_to_words 150 = "*Excellent Match* ✅" ∧
    match_percentage_to_words (-5) = "*Poor Match* ❌" :=
  ⟨(classification_outside_range 150).1 (by decide),
   (classification_outside_range (-5)).2 (by decide)⟩

/-- C9: `input_pdf_setup` invoked with no uploaded file fails with the
no-document error `"No file uploaded"` before any rendering is attempted
(the result is this error for every possible renderer), and with a file
present it succeeds with the rendered result, so that error is not raised. -/
theorem input_pdf_setup_requires_file {α β : Type} (render : α → β) :
    input_pdf_setup render none = Except.error "No file uploaded" ∧
    ∀ f : α, input_pdf_setup render (some f) = Except.ok (render f) :=
  ⟨rfl, fun _ => rfl⟩

theorem input_pdf_setup_requires_file_witness :
    input_pdf_setup (fun n : Nat => n + 1) none = Except.error "No file uploaded" ∧
    input_pdf_setup (fun n : Nat => n + 1) (some 4) = Except.ok 5 := by
  have h := input_pdf_setup_requires_file (fun n : Nat => n + 1)
  exact ⟨h.1, h.2 4⟩

/-- C10: `extract_match_percentage` never raises: with Python's `int`
conversions modelled as fallible, every digit run fed to a conversion is a
nonempty all-digit string, so the fallible variant always succeeds and
agrees with the total function — some integer is always returned. -/
theorem extract_never_raises (s : List Char) :
    extract_match_percentage_opt s = some (extract_match_percentage s) := by
  cases hl : findLabeled s with
  | some ds =>
    have hwf := findLabeled_wf hl
    simp only [extract_match_percentage_opt, extract_match_percentage, hl]
    unfold parseNatDigits
    rw [if_pos ⟨hwf.1, hwf.2⟩]
  | none =>
    have hm : (boundedRuns s).mapM parseNatDigits =
        some ((boundedRuns s).map digitsVal) :=
      mapM_parseNatDigits _ (fun r hr => boundedRuns_wf hr)
    simp only [extract_match_percentage_opt, extract_match_percentage, hl, hm]
    cases hfr : firstInRange ((boundedRuns s).map digitsVal) <;> simp [hfr]
